import Mathlib

/-!
Shallow embedding of the azul GUI-toolkit binding layer:
the tag-registry builder of `src/azul/src/ui_state.rs` and the
cascade engine entry points of `src/src/ui_description.rs`.

Opaque Rust types (`TagId`, `NodeId`, callbacks, event filters, …) whose
definitions live in modules not provided here are embedded as natural
numbers; `BTreeMap` is embedded as an association list whose `insert`
replaces an existing binding in place, matching map semantics.
-/

namespace Azul

/-- Node identity: opaque handle into the DOM node arena (`id_tree::NodeId`). -/
abbrev NodeId := Nat

/-- Modelled from the spec: `dom::TagId` (its defining module is not in the
provided sources) is an opaque handle produced by a monotonic counter. -/
abbrev TagId := Nat

/-- Modelled from the spec: `style::HoverGroup`, an opaque hover-group marker. -/
abbrev HoverGroup := Nat

/-- Modelled from the spec: an inline callback handle (`dom::Callback`). -/
abbrev Callback := Nat

/-- Modelled from the spec: identity of a callback registered in the external
default-callback table (`default_callbacks::DefaultCallbackId`). -/
abbrev DefaultCallbackId := Nat

/-- Modelled from the spec: a regular event filter (`dom::EventFilter`). -/
abbrev EventFilter := Nat

/-- Modelled from the spec: a negated event filter (`dom::NotEventFilter`). -/
abbrev NotEventFilter := Nat

/-- Modelled from the spec: a window-scoped filter (`dom::WindowEventFilter`). -/
abbrev WindowEventFilter := Nat

/-- Modelled from the spec: a desktop-scoped filter (`dom::DesktopEventFilter`). -/
abbrev DesktopEventFilter := Nat

/-- Modelled from the spec: a tab-index marker (`dom::TabIndex`). -/
abbrev TabIndex := Nat

/-- Modelled from the spec: a parsed style property (`azul_css::CssProperty`). -/
abbrev CssProperty := Nat

/-- Modelled from the spec: window identity (`window::WindowId`). -/
abbrev WindowId := Nat

/-- Association-list embedding of `BTreeMap`: `get` finds the first binding of a
key, `insert` replaces an existing binding in place or appends a new one. -/
abbrev Map (α β : Type) := List (α × β)

def Map.get {α β : Type} [DecidableEq α] : Map α β → α → Option β
| [], _ => none
| (k, v) :: rest, a => if k = a then some v else Map.get rest a

def Map.insert {α β : Type} [DecidableEq α] : Map α β → α → β → Map α β
| [], a, b => [(a, b)]
| (k, v) :: rest, a, b => if k = a then (a, b) :: rest else (k, v) :: Map.insert rest a b

theorem Map.get_insert_self {α β : Type} [DecidableEq α] (m : Map α β) (k : α) (v : β) :
    (m.insert k v).get k = some v := by
  induction m with
  | nil => simp [Map.insert, Map.get]
  | cons kv rest ih =>
    obtain ⟨k', v'⟩ := kv
    by_cases h : k' = k
    · simp [Map.insert, Map.get, h]
    · simp [Map.insert, Map.get, h, ih]

theorem Map.get_insert_ne {α β : Type} [DecidableEq α] (m : Map α β) (k a : α) (v : β)
    (h : a ≠ k) : (m.insert k v).get a = m.get a := by
  induction m with
  | nil => simp [Map.insert, Map.get, Ne.symm h]
  | cons kv rest ih =>
    obtain ⟨k', v'⟩ := kv
    by_cases hk : k' = k
    · subst hk
      simp [Map.insert, Map.get, Ne.symm h]
    · simp [Map.insert, Map.get, hk, ih]

theorem Map.get_insert {α β : Type} [DecidableEq α] (m : Map α β) (k a : α) (v : β) :
    (m.insert k v).get a = if a = k then some v else m.get a := by
  by_cases h : a = k
  · subst h; simp [Map.get_insert_self]
  · simp [h, Map.get_insert_ne m k a v h]

theorem Map.insert_eq_self {α β : Type} [DecidableEq α] (m : Map α β) (k : α) (v : β)
    (h : m.get k = some v) : m.insert k v = m := by
  induction m with
  | nil => simp [Map.get] at h
  | cons kv rest ih =>
    obtain ⟨k', v'⟩ := kv
    by_cases hk : k' = k
    · subst hk
      simp [Map.get] at h
      simp [Map.insert, h]
    · simp [Map.get, hk] at h
      simp [Map.insert, hk, ih h]

theorem Map.get_mem {α β : Type} [DecidableEq α] (m : Map α β) (k : α) (v : β)
    (h : m.get k = some v) : (k, v) ∈ m := by
  induction m with
  | nil => simp [Map.get] at h
  | cons kv rest ih =>
    obtain ⟨k', v'⟩ := kv
    by_cases hk : k' = k
    · subst hk
      simp [Map.get] at h
      simp [h]
    · simp [Map.get, hk] at h
      exact List.mem_cons_of_mem _ (ih h)

theorem Map.get_eq_none_of_not_mem_keys {α β : Type} [DecidableEq α] (m : Map α β) (k : α)
    (h : k ∉ m.map Prod.fst) : m.get k = none := by
  induction m with
  | nil => simp [Map.get]
  | cons kv rest ih =>
    obtain ⟨k', v'⟩ := kv
    have h1 : k' ≠ k := by
      intro hh
      exact h (by simp [hh])
    have h2 : k ∉ rest.map Prod.fst := by
      intro hh
      exact h (by simp [hh])
    simp [Map.get, h1, ih h2]

/-- Modelled from the spec: the per-node payload of the DOM arena
(`dom::NodeData`, not in the provided sources): the callbacks and markers a
node carries, partitioned by event classification (regular, negated,
window-scoped, desktop-scoped; inline vs. default-table reference), plus the
optional tab-index and the draggable flag. -/
structure NodeData where
  callbacks : List (EventFilter × Callback)
  default_callbacks : List (EventFilter × DefaultCallbackId)
  not_callbacks : List (NotEventFilter × Callback)
  not_default_callbacks : List (NotEventFilter × DefaultCallbackId)
  window_callbacks : List (WindowEventFilter × Callback)
  window_default_callbacks : List (WindowEventFilter × DefaultCallbackId)
  desktop_callbacks : List (DesktopEventFilter × Callback)
  desktop_default_callbacks : List (DesktopEventFilter × DefaultCallbackId)
  tab_index : Option TabIndex
  draggable : Bool
deriving DecidableEq

/-- Modelled from the spec: the DOM node tree (`id_tree::Arena` plus the
parent/child links, not in the provided sources), as a rose tree of
(node identity, node payload). -/
inductive NodeTree where
| node : NodeId → NodeData → List NodeTree → NodeTree

/-- Modelled from the spec: the DOM handed to the builders (`dom::Dom`), with
`root` the root of the node tree. -/
structure Dom where
  root : NodeTree

mutual

/-- All (identity, payload) pairs of a tree, in top-down (preorder) traversal
order. -/
def treeNodes : NodeTree → List (NodeId × NodeData)
| .node i d cs => (i, d) :: forestNodes cs

/-- All (identity, payload) pairs of a forest, in traversal order. -/
def forestNodes : List NodeTree → List (NodeId × NodeData)
| [] => []
| t :: ts => treeNodes t ++ forestNodes ts

end

/-- The tag registry (`UiState` of `src/azul/src/ui_state.rs`): tag→node and
node→tag maps and the purpose-specific callback/marker maps, keyed by tag or
by node identity exactly as in the source. -/
structure UiState where
  dom : Dom
  tag_ids_to_callbacks : Map TagId (Map EventFilter Callback)
  tag_ids_to_default_callbacks : Map TagId (Map EventFilter DefaultCallbackId)
  tab_index_tags : Map TagId (NodeId × TabIndex)
  draggable_tags : Map TagId NodeId
  tag_ids_to_node_ids : Map TagId NodeId
  node_ids_to_tag_ids : Map NodeId TagId
  dynamic_css_overrides : Map NodeId (Map String CssProperty)
  tag_ids_to_hover_active_states : Map TagId (NodeId × HoverGroup)
  not_callbacks : Map NodeId (Map NotEventFilter Callback)
  not_default_callbacks : Map NodeId (Map NotEventFilter DefaultCallbackId)
  window_callbacks : Map NodeId (Map WindowEventFilter Callback)
  window_default_callbacks : Map NodeId (Map WindowEventFilter DefaultCallbackId)
  desktop_callbacks : Map NodeId (Map DesktopEventFilter Callback)
  desktop_default_callbacks : Map NodeId (Map DesktopEventFilter DefaultCallbackId)

/-- Modelled from the spec: `dom::new_tag_id` (not in the provided sources) is
the process-wide monotonic tag allocator; the global atomic counter is made
explicit as a `Nat` threaded through the builders. It returns the current
counter value as the fresh tag and the incremented counter. -/
def new_tag_id (c : Nat) : TagId × Nat := (c, c + 1)

/-- One iteration of the loop of `UiState::create_tags_for_hover_nodes`
(`src/azul/src/ui_state.rs` lines 113-125): look up an existing tag for the
hover node, otherwise allocate a fresh one, then record it in the node→tag,
tag→node and hover/active-state maps. -/
def create_tags_step (acc : UiState × Nat) (p : NodeId × HoverGroup) : UiState × Nat :=
  match acc.1.node_ids_to_tag_ids.get p.1 with
  | some tag_id =>
      ({ acc.1 with
          node_ids_to_tag_ids := acc.1.node_ids_to_tag_ids.insert p.1 tag_id,
          tag_ids_to_node_ids := acc.1.tag_ids_to_node_ids.insert tag_id p.1,
          tag_ids_to_hover_active_states :=
            acc.1.tag_ids_to_hover_active_states.insert tag_id (p.1, p.2) },
        acc.2)
  | none =>
      ({ acc.1 with
          node_ids_to_tag_ids := acc.1.node_ids_to_tag_ids.insert p.1 (new_tag_id acc.2).1,
          tag_ids_to_node_ids := acc.1.tag_ids_to_node_ids.insert (new_tag_id acc.2).1 p.1,
          tag_ids_to_hover_active_states :=
            acc.1.tag_ids_to_hover_active_states.insert (new_tag_id acc.2).1 (p.1, p.2) },
        (new_tag_id acc.2).2)

/-- Embeds `UiState::create_tags_for_hover_nodes`: iterate `create_tags_step` over the
hover map's entries. `BTreeMap` iteration is embedded as a list of
key-distinct pairs; the global tag counter is the explicit `c`. -/
def create_tags_for_hover_nodes (s : UiState) (c : Nat)
    (hover_nodes : List (NodeId × HoverGroup)) : UiState × Nat :=
  hover_nodes.foldl create_tags_step (s, c)

/-- The documented registry invariant (spec §3, §8): the tag→node and node→tag
maps form a bijection. -/
def TagBijection (s : UiState) : Prop :=
  ∀ t n, s.tag_ids_to_node_ids.get t = some n ↔ s.node_ids_to_tag_ids.get n = some t

/-- Freshness of the allocator relative to a registry: every tag already
present (as a node's tag or as a tag→node key) precedes the counter, so every
tag the allocator will return is distinct from all tags already present. -/
def FreshFrom (s : UiState) (c : Nat) : Prop :=
  (∀ n t, s.node_ids_to_tag_ids.get n = some t → t < c) ∧
  (∀ t n, s.tag_ids_to_node_ids.get t = some n → t < c)

/-- A hover pair `p` is registered in `s` under tag `t`: the node→tag,
tag→node and hover/active-state maps all record it. -/
def HoverRegistered (s : UiState) (p : NodeId × HoverGroup) (t : TagId) : Prop :=
  s.node_ids_to_tag_ids.get p.1 = some t ∧
  s.tag_ids_to_node_ids.get t = some p.1 ∧
  s.tag_ids_to_hover_active_states.get t = some p

theorem create_tags_step_node_tag_stable (acc : UiState × Nat) (p : NodeId × HoverGroup)
    (n : NodeId) (t : TagId) (h : acc.1.node_ids_to_tag_ids.get n = some t) :
    (create_tags_step acc p).1.node_ids_to_tag_ids.get n = some t := by
  unfold create_tags_step
  cases hg : acc.1.node_ids_to_tag_ids.get p.1 with
  | some tag_id =>
    by_cases hpn : p.1 = n
    · subst hpn
      rw [hg] at h
      have he : tag_id = t := Option.some.inj h
      simpa [he] using Map.get_insert_self acc.1.node_ids_to_tag_ids p.1 tag_id
    · simpa using
        (Map.get_insert_ne acc.1.node_ids_to_tag_ids p.1 n tag_id
          (fun hh => hpn hh.symm)).trans h
  | none =>
    by_cases hpn : p.1 = n
    · subst hpn
      rw [hg] at h
      exact absurd h (by simp)
    · simpa using
        (Map.get_insert_ne acc.1.node_ids_to_tag_ids p.1 n (new_tag_id acc.2).1
          (fun hh => hpn hh.symm)).trans h

theorem create_tags_fold_node_tag_stable (l : List (NodeId × HoverGroup))
    (acc : UiState × Nat) (n : NodeId) (t : TagId)
    (h : acc.1.node_ids_to_tag_ids.get n = some t) :
    (l.foldl create_tags_step acc).1.node_ids_to_tag_ids.get n = some t := by
  induction l generalizing acc with
  | nil => exact h
  | cons q rest ih =>
    exact ih (create_tags_step acc q) (create_tags_step_node_tag_stable acc q n t h)

theorem create_tags_step_invariant (acc : UiState × Nat) (p : NodeId × HoverGroup)
    (hb : TagBijection acc.1) (hf : FreshFrom acc.1 acc.2) :
    TagBijection (create_tags_step acc p).1 ∧
    FreshFrom (create_tags_step acc p).1 (create_tags_step acc p).2 ∧
    acc.2 ≤ (create_tags_step acc p).2 := by
  unfold create_tags_step
  cases hg : acc.1.node_ids_to_tag_ids.get p.1 with
  | some tag_id =>
    have h1 : acc.1.node_ids_to_tag_ids.insert p.1 tag_id = acc.1.node_ids_to_tag_ids :=
      Map.insert_eq_self _ _ _ hg
    have h2 : acc.1.tag_ids_to_node_ids.get tag_id = some p.1 := (hb tag_id p.1).mpr hg
    have h3 : acc.1.tag_ids_to_node_ids.insert tag_id p.1 = acc.1.tag_ids_to_node_ids :=
      Map.insert_eq_self _ _ _ h2
    refine ⟨?_, ⟨?_, ?_⟩, le_refl _⟩
    · intro t n
      simpa [h1, h3] using hb t n
    · intro n t h
      simp only [h1] at h
      exact hf.1 n t h
    · intro t n h
      simp only [h3] at h
      exact hf.2 t n h
  | none =>
    simp only [new_tag_id]
    refine ⟨?_, ⟨?_, ?_⟩, Nat.le_succ _⟩
    · intro t n
      simp only
      rw [Map.get_insert, Map.get_insert]
      by_cases ht : t = acc.2 <;> by_cases hn : n = p.1
      · subst ht; subst hn; simp
      · subst ht
        simp only [if_pos rfl, if_neg hn]
        constructor
        · intro hh
          exact absurd (Option.some.inj hh).symm hn
        · intro hh
          exact absurd (hf.1 n acc.2 hh) (lt_irrefl _)
      · subst hn
        simp only [if_neg ht, if_pos rfl]
        constructor
        · intro hh
          exact absurd ((hb t p.1).mp hh) (by simp [hg])
        · intro hh
          exact absurd (Option.some.inj hh) (fun hc => ht hc.symm)
      · simp only [if_neg ht, if_neg hn]
        exact hb t n
    · intro n t h
      simp only [Map.get_insert] at h
      by_cases hn : n = p.1
      · rw [if_pos hn] at h
        cases h
        exact Nat.lt_succ_self _
      · rw [if_neg hn] at h
        exact Nat.lt_succ_of_lt (hf.1 n t h)
    · intro t n h
      simp only [Map.get_insert] at h
      by_cases ht : t = acc.2
      · subst ht
        exact Nat.lt_succ_self _
      · rw [if_neg ht] at h
        exact Nat.lt_succ_of_lt (hf.2 t n h)

theorem create_tags_fold_invariant (l : List (NodeId × HoverGroup)) (acc : UiState × Nat)
    (hb : TagBijection acc.1) (hf : FreshFrom acc.1 acc.2) :
    TagBijection (l.foldl create_tags_step acc).1 ∧
    FreshFrom (l.foldl create_tags_step acc).1 (l.foldl create_tags_step acc).2 ∧
    acc.2 ≤ (l.foldl create_tags_step acc).2 := by
  induction l generalizing acc with
  | nil => exact ⟨hb, hf, le_refl _⟩
  | cons q rest ih =>
    obtain ⟨hb', hf', hc'⟩ := create_tags_step_invariant acc q hb hf
    obtain ⟨hb'', hf'', hc''⟩ := ih (create_tags_step acc q) hb' hf'
    exact ⟨hb'', hf'', le_trans hc' hc''⟩

theorem create_tags_step_persist (acc : UiState × Nat) (q p : NodeId × HoverGroup)
    (t : TagId) (hb : TagBijection acc.1) (hf : FreshFrom acc.1 acc.2)
    (hr : HoverRegistered acc.1 p t) (hne : q.1 ≠ p.1) :
    HoverRegistered (create_tags_step acc q).1 p t := by
  obtain ⟨hr1, hr2, hr3⟩ := hr
  unfold create_tags_step
  cases hg : acc.1.node_ids_to_tag_ids.get q.1 with
  | some tag_id =>
    have htq : tag_id ≠ t := by
      intro hh
      subst hh
      have : acc.1.tag_ids_to_node_ids.get tag_id = some q.1 := (hb tag_id q.1).mpr hg
      rw [hr2] at this
      exact hne (Option.some.inj this).symm
    refine ⟨?_, ?_, ?_⟩
    · simpa [Map.get_insert_ne acc.1.node_ids_to_tag_ids q.1 p.1 tag_id
        (fun hh => hne hh.symm)] using hr1
    · simpa [Map.get_insert_ne acc.1.tag_ids_to_node_ids tag_id t q.1
        (fun hh => htq hh.symm)] using hr2
    · simpa [Map.get_insert_ne acc.1.tag_ids_to_hover_active_states tag_id t (q.1, q.2)
        (fun hh => htq hh.symm)] using hr3
  | none =>
    have htc : t ≠ acc.2 := by
      intro hh
      exact absurd (hf.1 p.1 t hr1) (by simp [hh])
    simp only [new_tag_id]
    refine ⟨?_, ?_, ?_⟩
    · simpa [Map.get_insert_ne acc.1.node_ids_to_tag_ids q.1 p.1 acc.2
        (fun hh => hne hh.symm)] using hr1
    · simpa [Map.get_insert_ne acc.1.tag_ids_to_node_ids acc.2 t q.1 htc] using hr2
    · simpa [Map.get_insert_ne acc.1.tag_ids_to_hover_active_states acc.2 t (q.1, q.2)
        htc] using hr3

theorem create_tags_fold_persist (l : List (NodeId × HoverGroup)) (acc : UiState × Nat)
    (p : NodeId × HoverGroup) (t : TagId)
    (hb : TagBijection acc.1) (hf : FreshFrom acc.1 acc.2)
    (hr : HoverRegistered acc.1 p t) (hout : p.1 ∉ l.map Prod.fst) :
    HoverRegistered (l.foldl create_tags_step acc).1 p t := by
  induction l generalizing acc with
  | nil => exact hr
  | cons q rest ih =>
    have hq : q.1 ≠ p.1 := by
      intro hh
      exact hout (by simp [hh.symm])
    have hout' : p.1 ∉ rest.map Prod.fst := by
      intro hh
      exact hout (by simp [hh])
    obtain ⟨hb', hf', _⟩ := create_tags_step_invariant acc q hb hf
    exact ih (create_tags_step acc q) hb' hf'
      (create_tags_step_persist acc q p t hb hf hr hq) hout'

theorem create_tags_step_registers (acc : UiState × Nat) (p : NodeId × HoverGroup)
    (hb : TagBijection acc.1) :
    ∃ t, HoverRegistered (create_tags_step acc p).1 p t := by
  unfold create_tags_step
  cases hg : acc.1.node_ids_to_tag_ids.get p.1 with
  | some tag_id =>
    refine ⟨tag_id, ?_, ?_, ?_⟩
    · simpa using Map.get_insert_self acc.1.node_ids_to_tag_ids p.1 tag_id
    · have h2 : acc.1.tag_ids_to_node_ids.get tag_id = some p.1 := (hb tag_id p.1).mpr hg
      simpa [Map.insert_eq_self _ _ _ h2] using h2
    · simpa using
        Map.get_insert_self acc.1.tag_ids_to_hover_active_states tag_id (p.1, p.2)
  | none =>
    refine ⟨acc.2, ?_, ?_, ?_⟩
    · simpa [new_tag_id] using Map.get_insert_self acc.1.node_ids_to_tag_ids p.1 acc.2
    · simpa [new_tag_id] using Map.get_insert_self acc.1.tag_ids_to_node_ids acc.2 p.1
    · simpa [new_tag_id] using
        Map.get_insert_self acc.1.tag_ids_to_hover_active_states acc.2 (p.1, p.2)

theorem create_tags_fold_registers (l : List (NodeId × HoverGroup)) (acc : UiState × Nat)
    (hb : TagBijection acc.1) (hf : FreshFrom acc.1 acc.2)
    (hnd : (l.map Prod.fst).Nodup) :
    ∀ p ∈ l, ∃ t, HoverRegistered (l.foldl create_tags_step acc).1 p t := by
  induction l generalizing acc with
  | nil => intro p hp; exact absurd hp (by simp)
  | cons q rest ih =>
    have hnd' : (rest.map Prod.fst).Nodup := (List.nodup_cons.mp (by simpa using hnd)).2
    have hqout : q.1 ∉ rest.map Prod.fst := (List.nodup_cons.mp (by simpa using hnd)).1
    obtain ⟨hb', hf', _⟩ := create_tags_step_invariant acc q hb hf
    intro p hp
    rcases List.mem_cons.mp hp with hpq | hpr
    · subst hpq
      obtain ⟨t, hr⟩ := create_tags_step_registers acc p hb
      exact ⟨t, create_tags_fold_persist rest (create_tags_step acc p) p t hb' hf' hr hqout⟩
    · exact ih (create_tags_step acc q) hb' hf' hnd' p hpr

theorem create_tags_step_untouched (acc : UiState × Nat) (q : NodeId × HoverGroup)
    (n : NodeId) (hne : n ≠ q.1) :
    (create_tags_step acc q).1.node_ids_to_tag_ids.get n
      = acc.1.node_ids_to_tag_ids.get n := by
  unfold create_tags_step
  cases hg : acc.1.node_ids_to_tag_ids.get q.1 with
  | some tag_id =>
    simpa using Map.get_insert_ne acc.1.node_ids_to_tag_ids q.1 n tag_id hne
  | none =>
    simpa using Map.get_insert_ne acc.1.node_ids_to_tag_ids q.1 n (new_tag_id acc.2).1 hne

theorem create_tags_fold_untouched (l : List (NodeId × HoverGroup)) (acc : UiState × Nat)
    (n : NodeId) (hout : n ∉ l.map Prod.fst) :
    (l.foldl create_tags_step acc).1.node_ids_to_tag_ids.get n
      = acc.1.node_ids_to_tag_ids.get n := by
  induction l generalizing acc with
  | nil => rfl
  | cons q rest ih =>
    have hq : n ≠ q.1 := by
      intro hh
      exact hout (by simp [hh])
    have hout' : n ∉ rest.map Prod.fst := by
      intro hh
      exact hout (by simp [hh])
    rw [List.foldl_cons, ih (create_tags_step acc q) hout',
      create_tags_step_untouched acc q n hq]

theorem create_tags_step_noop (acc : UiState × Nat) (p : NodeId × HoverGroup) (t : TagId)
    (hr : HoverRegistered acc.1 p t) : create_tags_step acc p = acc := by
  obtain ⟨hr1, hr2, hr3⟩ := hr
  unfold create_tags_step
  rw [hr1]
  simp only [Map.insert_eq_self _ _ _ hr1, Map.insert_eq_self _ _ _ hr2,
    Map.insert_eq_self _ _ _ hr3]

theorem create_tags_fold_noop (l : List (NodeId × HoverGroup)) (acc : UiState × Nat)
    (h : ∀ p ∈ l, ∃ t, HoverRegistered acc.1 p t) :
    l.foldl create_tags_step acc = acc := by
  induction l with
  | nil => rfl
  | cons q rest ih =>
    obtain ⟨t, hr⟩ := h q (by simp)
    rw [List.foldl_cons, create_tags_step_noop acc q t hr]
    exact ih (fun p hp => h p (List.mem_cons_of_mem _ hp))

/-- All registry fields other than `node_ids_to_tag_ids`, `tag_ids_to_node_ids`
and `tag_ids_to_hover_active_states` agree between two registries. -/
def UnrelatedFieldsUnchanged (s s' : UiState) : Prop :=
  s'.dom = s.dom ∧
  s'.tag_ids_to_callbacks = s.tag_ids_to_callbacks ∧
  s'.tag_ids_to_default_callbacks = s.tag_ids_to_default_callbacks ∧
  s'.tab_index_tags = s.tab_index_tags ∧
  s'.draggable_tags = s.draggable_tags ∧
  s'.dynamic_css_overrides = s.dynamic_css_overrides ∧
  s'.not_callbacks = s.not_callbacks ∧
  s'.not_default_callbacks = s.not_default_callbacks ∧
  s'.window_callbacks = s.window_callbacks ∧
  s'.window_default_callbacks = s.window_default_callbacks ∧
  s'.desktop_callbacks = s.desktop_callbacks ∧
  s'.desktop_default_callbacks = s.desktop_default_callbacks

theorem unrelatedFieldsUnchanged_refl (s : UiState) : UnrelatedFieldsUnchanged s s := by
  simp [UnrelatedFieldsUnchanged]

theorem unrelatedFieldsUnchanged_trans {s s' s'' : UiState}
    (h : UnrelatedFieldsUnchanged s s') (h' : UnrelatedFieldsUnchanged s' s'') :
    UnrelatedFieldsUnchanged s s'' := by
  obtain ⟨a, b, c, d, e, f, g, i, j, k, l, m⟩ := h
  obtain ⟨a', b', c', d', e', f', g', i', j', k', l', m'⟩ := h'
  exact ⟨a'.trans a, b'.trans b, c'.trans c, d'.trans d, e'.trans e, f'.trans f,
    g'.trans g, i'.trans i, j'.trans j, k'.trans k, l'.trans l, m'.trans m⟩

theorem create_tags_step_unrelated (acc : UiState × Nat) (p : NodeId × HoverGroup) :
    UnrelatedFieldsUnchanged acc.1 (create_tags_step acc p).1 := by
  unfold create_tags_step
  cases hg : acc.1.node_ids_to_tag_ids.get p.1 <;>
    exact ⟨rfl, rfl, rfl, rfl, rfl, rfl, rfl, rfl, rfl, rfl, rfl, rfl⟩

theorem create_tags_fold_unrelated (l : List (NodeId × HoverGroup)) (acc : UiState × Nat) :
    UnrelatedFieldsUnchanged acc.1 (l.foldl create_tags_step acc).1 := by
  induction l generalizing acc with
  | nil => exact unrelatedFieldsUnchanged_refl _
  | cons q rest ih =>
    exact unrelatedFieldsUnchanged_trans (create_tags_step_unrelated acc q)
      (ih (create_tags_step acc q))

theorem Map.get_singleton {α β : Type} [DecidableEq α] (k : α) (v : β) (a : α) :
    Map.get [(k, v)] a = if k = a then some v else none := rfl

/-- Claim C1: for every registry state satisfying the documented bijection
invariant, with the allocator counter ahead of every existing tag and a hover
map with distinct node keys, a node that already has a tag identity in
`node_ids_to_tag_ids` before the call keeps exactly that tag identity after
`create_tags_for_hover_nodes`, and its hover/active registration is recorded
under that same tag — no second, different tag is allocated for the node. -/
theorem claim_C1_tag_reuse (s : UiState) (c : Nat) (hover : List (NodeId × HoverGroup))
    (n : NodeId) (t : TagId)
    (hb : TagBijection s) (hf : FreshFrom s c) (hnd : (hover.map Prod.fst).Nodup)
    (h : s.node_ids_to_tag_ids.get n = some t) :
    (create_tags_for_hover_nodes s c hover).1.node_ids_to_tag_ids.get n = some t ∧
    ∀ g, (n, g) ∈ hover →
      (create_tags_for_hover_nodes s c hover).1.tag_ids_to_hover_active_states.get t
        = some (n, g) := by
  simp only [create_tags_for_hover_nodes]
  constructor
  · exact create_tags_fold_node_tag_stable hover (s, c) n t h
  · intro g hg
    obtain ⟨t', hr⟩ := create_tags_fold_registers hover (s, c) hb hf hnd (n, g) hg
    have hst : (hover.foldl create_tags_step (s, c)).1.node_ids_to_tag_ids.get n = some t :=
      create_tags_fold_node_tag_stable hover (s, c) n t h
    have ht : t' = t := Option.some.inj (hr.1.symm.trans hst)
    exact ht ▸ hr.2.2

/-- Claim C2: if the tag→node and node→tag maps form a bijection and every tag
the allocator will return is distinct from all tags already present (the
counter is ahead of them), then after `create_tags_for_hover_nodes` the two
maps still form a bijection, for every hover map argument. -/
theorem claim_C2_bijection_preserved (s : UiState) (c : Nat)
    (hover : List (NodeId × HoverGroup)) (hb : TagBijection s) (hf : FreshFrom s c) :
    TagBijection (create_tags_for_hover_nodes s c hover).1 := by
  simp only [create_tags_for_hover_nodes]
  exact (create_tags_fold_invariant hover (s, c) hb hf).1

/-- Claim C5: after `create_tags_for_hover_nodes`, every pair (node, hover
group) of the hover map is recorded under some tag in the node→tag, tag→node
and hover/active-state maps, and the node→tag map is unchanged at every node
not listed in the hover map. Stated for registries satisfying the documented
bijection invariant, a counter ahead of every existing tag, and hover maps
with distinct node keys. -/
theorem claim_C5_exact_registration (s : UiState) (c : Nat)
    (hover : List (NodeId × HoverGroup)) (hb : TagBijection s) (hf : FreshFrom s c)
    (hnd : (hover.map Prod.fst).Nodup) :
    (∀ p ∈ hover, ∃ t : TagId,
        (create_tags_for_hover_nodes s c hover).1.node_ids_to_tag_ids.get p.1 = some t ∧
        (create_tags_for_hover_nodes s c hover).1.tag_ids_to_node_ids.get t = some p.1 ∧
        (create_tags_for_hover_nodes s c hover).1.tag_ids_to_hover_active_states.get t
          = some p) ∧
    (∀ n, n ∉ hover.map Prod.fst →
        (create_tags_for_hover_nodes s c hover).1.node_ids_to_tag_ids.get n
          = s.node_ids_to_tag_ids.get n) := by
  simp only [create_tags_for_hover_nodes]
  constructor
  · intro p hp
    obtain ⟨t, hr⟩ := create_tags_fold_registers hover (s, c) hb hf hnd p hp
    exact ⟨t, hr.1, hr.2.1, hr.2.2⟩
  · intro n hn
    exact create_tags_fold_untouched hover (s, c) n hn

/-- Claim C9: `create_tags_for_hover_nodes` mutates only `node_ids_to_tag_ids`,
`tag_ids_to_node_ids` and `tag_ids_to_hover_active_states`; every other
registry field is unchanged, for every registry state and hover map. -/
theorem claim_C9_only_tag_maps_change (s : UiState) (c : Nat)
    (hover : List (NodeId × HoverGroup)) :
    UnrelatedFieldsUnchanged s (create_tags_for_hover_nodes s c hover).1 :=
  create_tags_fold_unrelated hover (s, c)

/-- Claim C10: `create_tags_for_hover_nodes` is idempotent: calling it a second
time with the same hover map immediately after a first call leaves the
registry and the tag counter exactly as they were after the first call.
Stated for registries satisfying the documented bijection invariant, a
counter ahead of every existing tag, and hover maps with distinct node
keys. -/
theorem claim_C10_idempotent (s : UiState) (c : Nat)
    (hover : List (NodeId × HoverGroup)) (hb : TagBijection s) (hf : FreshFrom s c)
    (hnd : (hover.map Prod.fst).Nodup) :
    create_tags_for_hover_nodes (create_tags_for_hover_nodes s c hover).1
        (create_tags_for_hover_nodes s c hover).2 hover
      = create_tags_for_hover_nodes s c hover := by
  have hreg := create_tags_fold_registers hover (s, c) hb hf hnd
  simp only [create_tags_for_hover_nodes] at hreg ⊢
  exact create_tags_fold_noop hover (hover.foldl create_tags_step (s, c)) hreg

/-- A concrete node payload with no callbacks and no markers, for witnesses. -/
def wData : NodeData := ⟨[], [], [], [], [], [], [], [], none, false⟩

/-- A concrete one-node DOM, for witnesses. -/
def wDom : Dom := ⟨NodeTree.node 0 wData []⟩

/-- A concrete registry in which node 5 already carries tag 3, for witnesses. -/
def wState : UiState :=
  { dom := wDom
    tag_ids_to_callbacks := []
    tag_ids_to_default_callbacks := []
    tab_index_tags := []
    draggable_tags := []
    tag_ids_to_node_ids := [(3, 5)]
    node_ids_to_tag_ids := [(5, 3)]
    dynamic_css_overrides := []
    tag_ids_to_hover_active_states := []
    not_callbacks := []
    not_default_callbacks := []
    window_callbacks := []
    window_default_callbacks := []
    desktop_callbacks := []
    desktop_default_callbacks := [] }

theorem wState_bij : TagBijection wState := by
  intro t n
  show Map.get [((3 : TagId), (5 : NodeId))] t = some n
    ↔ Map.get [((5 : NodeId), (3 : TagId))] n = some t
  rw [Map.get_singleton, Map.get_singleton]
  by_cases h3 : (3 : Nat) = t <;> by_cases h5 : (5 : Nat) = n
  · subst h3; subst h5; simp
  · subst h3; simp [h5]
  · subst h5; simp [h3]
  · simp [h3, h5]

theorem wState_fresh : FreshFrom wState 4 := by
  constructor
  · intro n t h
    have h' : Map.get [((5 : NodeId), (3 : TagId))] n = some t := h
    rw [Map.get_singleton] at h'
    by_cases h5 : (5 : Nat) = n
    · rw [if_pos h5] at h'
      obtain rfl : (3 : Nat) = t := Option.some.inj h'
      decide
    · rw [if_neg h5] at h'
      exact absurd h' (by simp)
  · intro t n h
    have h' : Map.get [((3 : TagId), (5 : NodeId))] t = some n := h
    rw [Map.get_singleton] at h'
    by_cases h3 : (3 : Nat) = t
    · subst h3
      decide
    · rw [if_neg h3] at h'
      exact absurd h' (by simp)

/-- Witness for claim C1 at a concrete registry, counter and hover map. -/
theorem claim_C1_witness :
    (TagBijection wState ∧ FreshFrom wState 4 ∧
      (([((5 : NodeId), (7 : HoverGroup))].map Prod.fst).Nodup) ∧
      wState.node_ids_to_tag_ids.get 5 = some 3) ∧
    ((create_tags_for_hover_nodes wState 4 [(5, 7)]).1.node_ids_to_tag_ids.get 5
        = some 3 ∧
      ∀ g, ((5 : NodeId), g) ∈ [((5 : NodeId), (7 : HoverGroup))] →
        (create_tags_for_hover_nodes wState 4
            [(5, 7)]).1.tag_ids_to_hover_active_states.get 3 = some (5, g)) :=
  ⟨⟨wState_bij, wState_fresh, by decide, rfl⟩,
    claim_C1_tag_reuse wState 4 [(5, 7)] 5 3 wState_bij wState_fresh (by decide) rfl⟩

/-- Witness for claim C2 at a concrete registry, counter and hover map. -/
theorem claim_C2_witness :
    (TagBijection wState ∧ FreshFrom wState 4) ∧
    TagBijection (create_tags_for_hover_nodes wState 4 [(6, 7)]).1 :=
  ⟨⟨wState_bij, wState_fresh⟩,
    claim_C2_bijection_preserved wState 4 [(6, 7)] wState_bij wState_fresh⟩

/-- Witness for claim C5 at a concrete registry, counter and hover map. -/
theorem claim_C5_witness :
    (TagBijection wState ∧ FreshFrom wState 4 ∧
      (([((5 : NodeId), (7 : HoverGroup)), (6, 8)].map Prod.fst).Nodup)) ∧
    ((∀ p ∈ [((5 : NodeId), (7 : HoverGroup)), (6, 8)], ∃ t : TagId,
        (create_tags_for_hover_nodes wState 4
            [(5, 7), (6, 8)]).1.node_ids_to_tag_ids.get p.1 = some t ∧
        (create_tags_for_hover_nodes wState 4
            [(5, 7), (6, 8)]).1.tag_ids_to_node_ids.get t = some p.1 ∧
        (create_tags_for_hover_nodes wState 4
            [(5, 7), (6, 8)]).1.tag_ids_to_hover_active_states.get t = some p) ∧
      (∀ n, n ∉ [((5 : NodeId), (7 : HoverGroup)), (6, 8)].map Prod.fst →
        (create_tags_for_hover_nodes wState 4
            [(5, 7), (6, 8)]).1.node_ids_to_tag_ids.get n
          = wState.node_ids_to_tag_ids.get n)) :=
  ⟨⟨wState_bij, wState_fresh, by decide⟩,
    claim_C5_exact_registration wState 4 [(5, 7), (6, 8)] wState_bij wState_fresh
      (by decide)⟩

/-- Witness for claim C10 at a concrete registry, counter and hover map. -/
theorem claim_C10_witness :
    (TagBijection wState ∧ FreshFrom wState 4 ∧
      (([((5 : NodeId), (7 : HoverGroup)), (6, 8)].map Prod.fst).Nodup)) ∧
    create_tags_for_hover_nodes
        (create_tags_for_hover_nodes wState 4 [(5, 7), (6, 8)]).1
        (create_tags_for_hover_nodes wState 4 [(5, 7), (6, 8)]).2 [(5, 7), (6, 8)]
      = create_tags_for_hover_nodes wState 4 [(5, 7), (6, 8)] :=
  ⟨⟨wState_bij, wState_fresh, by decide⟩,
    claim_C10_idempotent wState 4 [(5, 7), (6, 8)] wState_bij wState_fresh (by decide)⟩

/-- Modelled from the spec: `css::ZIndex` (its defining module is not
provided), the paint-order level wrapper; `ZIndex(0)` is the seed passed by
`UiDescription::from_dom`, and its `Default` is level 0. -/
structure ZIndex where
  val : Nat
deriving DecidableEq

/-- Modelled from the spec: a single resolved style declaration
(`css::CssDeclaration`, not in the provided sources), carrying the property it
touches and its value, as in the end-to-end scenario declarations such as
(color, black). -/
structure CssDeclaration where
  property : String
  value : String
deriving DecidableEq

/-- Modelled from the spec: a stylesheet rule (`css::CssRule`, not in the
provided sources). The selector part is abstract (rules are matched by an
external predicate); `declaration` is the (property name, declaration) pair
whose component at Rust index 1 — the `CssDeclaration` — is what
`CssConstraintList::push_rule` appends. -/
structure CssRule where
  declaration : String × CssDeclaration
deriving DecidableEq

/-- Embeds `CssConstraintList` of `src/src/ui_description.rs`: the append-ordered
declaration list of one node. -/
structure CssConstraintList where
  list : List CssDeclaration
deriving DecidableEq

/-- Embeds `CssConstraintList::push_rule` (`src/src/ui_description.rs` lines 76-81):
push `rule.declaration.1` (Rust tuple index 1, i.e. the declaration component,
Lean `.2`) at the end of the list. -/
def CssConstraintList.push_rule (l : CssConstraintList) (rule : CssRule) :
    CssConstraintList :=
  { list := l.list ++ [rule.declaration.2] }

/-- Embeds `StyledNode` of `src/src/ui_description.rs`: the resolved paint-order
level and declaration list of one node; its derived `Default` is z-level 0 and
the empty list. -/
structure StyledNode where
  z_level : ZIndex
  css_constraints : CssConstraintList
deriving DecidableEq

/-- The derived `Default` of `StyledNode`: z-level 0, empty declaration list. -/
def StyledNode.default : StyledNode := { z_level := ⟨0⟩, css_constraints := ⟨[]⟩ }

/-- Modelled from the spec: the last-wins property lookup that external
consumers perform over a declaration list — among declarations touching the
same property, the last one appended is authoritative. -/
def last_wins (l : List CssDeclaration) (p : String) : Option CssDeclaration :=
  (l.filter (fun d => d.property == p)).getLast?

theorem push_rule_foldl (rs : List CssRule) (l : CssConstraintList) :
    (rs.foldl CssConstraintList.push_rule l).list
      = l.list ++ rs.map (fun r => r.declaration.2) := by
  induction rs generalizing l with
  | nil => simp
  | cons r rest ih =>
    simp [List.foldl_cons, ih, CssConstraintList.push_rule, List.append_assoc]

theorem getLast_filter_of_last_match (p : String) :
    ∀ (L : List CssDeclaration) (j : Nat) (hj : j < L.length),
      (L.get ⟨j, hj⟩).property = p →
      (∀ k (hk : k < L.length), j < k → (L.get ⟨k, hk⟩).property ≠ p) →
      (L.filter (fun d => d.property == p)).getLast? = some (L.get ⟨j, hj⟩)
  | [], j, hj => by simp at hj
  | d :: rest, 0, hj => by
    intro hjp hafter
    have hrest : rest.filter (fun d => d.property == p) = [] := by
      apply List.filter_eq_nil.mpr
      intro a ha
      obtain ⟨⟨k, hk⟩, rfl⟩ := List.mem_iff_get.mp ha
      have := hafter (k + 1) (by simpa using Nat.succ_lt_succ hk) (Nat.succ_pos k)
      simpa using this
    simp only [List.get] at hjp ⊢
    rw [List.filter_cons_of_pos (by simpa using hjp), hrest]
    rfl
  | d :: rest, j + 1, hj => by
    intro hjp hafter
    have hj' : j < rest.length := Nat.lt_of_succ_lt_succ hj
    have ih := getLast_filter_of_last_match p rest j hj'
      (by simpa using hjp)
      (by
        intro k hk hjk
        have := hafter (k + 1) (by simpa using Nat.succ_lt_succ hk)
          (Nat.succ_lt_succ hjk)
        simpa using this)
    obtain ⟨x, xs, hxs⟩ : ∃ x xs, rest.filter (fun d => d.property == p) = x :: xs := by
      cases hfr : rest.filter (fun d => d.property == p) with
      | nil => rw [hfr] at ih; simp at ih
      | cons x xs => exact ⟨x, xs, rfl⟩
    simp only [List.get] at hjp ⊢
    by_cases hd : d.property = p
    · rw [List.filter_cons_of_pos (by simpa using hd), hxs]
      rw [hxs] at ih
      rw [List.getLast?_cons_cons]
      exact ih
    · rw [List.filter_cons_of_neg (by simpa using hd)]
      exact ih

/-- Claim C3: `push_rule` appends the rule's declaration at the end of the
list and leaves all earlier entries unchanged; the declaration list built by
pushing the rules discovered for a node, in discovery order, lists their
declarations in exactly that order, so for two discovered rules at positions
i < j that touch the same property, rule i's declaration precedes rule j's,
and — when rule j is the last discovered rule touching that property — a
last-wins lookup yields rule j's declaration. -/
theorem claim_C3_cascade_order (rs : List CssRule) (l : CssConstraintList) (r : CssRule)
    (p : String) (i j : Nat) (hi : i < rs.length) (hj : j < rs.length) (hij : i < j)
    (hip : (rs.get ⟨i, hi⟩).declaration.2.property = p)
    (hjp : (rs.get ⟨j, hj⟩).declaration.2.property = p)
    (hafter : ∀ k (hk : k < rs.length), j < k →
      (rs.get ⟨k, hk⟩).declaration.2.property ≠ p) :
    (CssConstraintList.push_rule l r).list = l.list ++ [r.declaration.2] ∧
    (rs.foldl CssConstraintList.push_rule ⟨[]⟩).list
      = rs.map (fun r' => r'.declaration.2) ∧
    (rs.foldl CssConstraintList.push_rule ⟨[]⟩).list.get? i
      = some (rs.get ⟨i, hi⟩).declaration.2 ∧
    (rs.foldl CssConstraintList.push_rule ⟨[]⟩).list.get? j
      = some (rs.get ⟨j, hj⟩).declaration.2 ∧
    last_wins (rs.foldl CssConstraintList.push_rule ⟨[]⟩).list p
      = some (rs.get ⟨j, hj⟩).declaration.2 := by
  have hfold : (rs.foldl CssConstraintList.push_rule ⟨[]⟩).list
      = rs.map (fun r' => r'.declaration.2) := by
    simpa using push_rule_foldl rs ⟨[]⟩
  refine ⟨rfl, hfold, ?_, ?_, ?_⟩
  · rw [hfold, List.get?_map, List.get?_eq_get hi]
    rfl
  · rw [hfold, List.get?_map, List.get?_eq_get hj]
    rfl
  · rw [hfold]
    unfold last_wins
    have hjm : j < (rs.map (fun r' => r'.declaration.2)).length := by simpa using hj
    have hget : (rs.map (fun r' => r'.declaration.2)).get ⟨j, hjm⟩
        = (rs.get ⟨j, hj⟩).declaration.2 := by
      simp [List.get_map]
    rw [← hget]
    apply getLast_filter_of_last_match p _ j hjm
    · rw [hget]
      exact hjp
    · intro k hk hjk
      have hk' : k < rs.length := by simpa using hk
      have : (rs.map (fun r' => r'.declaration.2)).get ⟨k, hk⟩
          = (rs.get ⟨k, hk'⟩).declaration.2 := by
        simp [List.get_map]
      rw [this]
      exact hafter k hk' hjk

/-- Property name fixture for the C3 witness. -/
def wProp : String := "color"

/-- First discovered rule for the C3 witness (low specificity, appears first). -/
def wRule1 : CssRule := ⟨("color", ⟨"color", "black"⟩)⟩

/-- Second discovered rule for the C3 witness (same property, appears later). -/
def wRule2 : CssRule := ⟨("color", ⟨"color", "red"⟩)⟩

/-- Witness for claim C3 at a concrete two-rule discovery sequence. -/
theorem claim_C3_witness :
    ((0 : Nat) < [wRule1, wRule2].length ∧ 1 < [wRule1, wRule2].length ∧ (0 : Nat) < 1 ∧
      ([wRule1, wRule2].get ⟨0, by decide⟩).declaration.2.property = wProp ∧
      ([wRule1, wRule2].get ⟨1, by decide⟩).declaration.2.property = wProp ∧
      (∀ k (hk : k < [wRule1, wRule2].length), 1 < k →
        ([wRule1, wRule2].get ⟨k, hk⟩).declaration.2.property ≠ wProp)) ∧
    ((CssConstraintList.push_rule ⟨[]⟩ wRule1).list
        = (⟨[]⟩ : CssConstraintList).list ++ [wRule1.declaration.2] ∧
      ([wRule1, wRule2].foldl CssConstraintList.push_rule ⟨[]⟩).list
        = [wRule1, wRule2].map (fun r' => r'.declaration.2) ∧
      ([wRule1, wRule2].foldl CssConstraintList.push_rule ⟨[]⟩).list.get? 0
        = some ([wRule1, wRule2].get ⟨0, by decide⟩).declaration.2 ∧
      ([wRule1, wRule2].foldl CssConstraintList.push_rule ⟨[]⟩).list.get? 1
        = some ([wRule1, wRule2].get ⟨1, by decide⟩).declaration.2 ∧
      last_wins ([wRule1, wRule2].foldl CssConstraintList.push_rule ⟨[]⟩).list wProp
        = some ([wRule1, wRule2].get ⟨1, by decide⟩).declaration.2) :=
  ⟨⟨by decide, by decide, by decide, rfl, rfl,
      by
        intro k hk h
        simp only [List.length_cons, List.length_nil] at hk
        exact absurd h (by omega)⟩,
    claim_C3_cascade_order [wRule1, wRule2] ⟨[]⟩ wRule1 wProp 0 1 (by decide) (by decide)
      (by decide) rfl rfl
      (by
        intro k hk h
        simp only [List.length_cons, List.length_nil] at hk
        exact absurd h (by omega))⟩

/-- The empty registry carrying a freshly read DOM. -/
def UiState.empty (dom : Dom) : UiState :=
  { dom := dom
    tag_ids_to_callbacks := []
    tag_ids_to_default_callbacks := []
    tab_index_tags := []
    draggable_tags := []
    tag_ids_to_node_ids := []
    node_ids_to_tag_ids := []
    dynamic_css_overrides := []
    tag_ids_to_hover_active_states := []
    not_callbacks := []
    not_default_callbacks := []
    window_callbacks := []
    window_default_callbacks := []
    desktop_callbacks := []
    desktop_default_callbacks := [] }

/-- Modelled from the spec (§4.1 step 2): a node needs a hit-testing tag
identity exactly when it carries a regular-filter callback (inline or
default), a tab index, or the draggable flag. -/
def needs_tag (d : NodeData) : Bool :=
  !d.callbacks.isEmpty || !d.default_callbacks.isEmpty || d.tab_index.isSome || d.draggable

/-- Modelled from the spec: one node's step of the tag-registry builder
(`Dom::into_ui_state`, not in the provided sources; spec §4.1 steps 2-3):
route the node-keyed (negated, window-scoped, desktop-scoped) callbacks into
their node-keyed maps; then, if the node has any item that requires
hit-testing, reuse or allocate its tag identity and record it bidirectionally
and into the tag-keyed maps. -/
def into_ui_state_step (acc : UiState × Nat) (p : NodeId × NodeData) : UiState × Nat :=
  let s1 := { acc.1 with
    not_callbacks := if p.2.not_callbacks.isEmpty then acc.1.not_callbacks
      else acc.1.not_callbacks.insert p.1 p.2.not_callbacks,
    not_default_callbacks := if p.2.not_default_callbacks.isEmpty
      then acc.1.not_default_callbacks
      else acc.1.not_default_callbacks.insert p.1 p.2.not_default_callbacks,
    window_callbacks := if p.2.window_callbacks.isEmpty then acc.1.window_callbacks
      else acc.1.window_callbacks.insert p.1 p.2.window_callbacks,
    window_default_callbacks := if p.2.window_default_callbacks.isEmpty
      then acc.1.window_default_callbacks
      else acc.1.window_default_callbacks.insert p.1 p.2.window_default_callbacks,
    desktop_callbacks := if p.2.desktop_callbacks.isEmpty then acc.1.desktop_callbacks
      else acc.1.desktop_callbacks.insert p.1 p.2.desktop_callbacks,
    desktop_default_callbacks := if p.2.desktop_default_callbacks.isEmpty
      then acc.1.desktop_default_callbacks
      else acc.1.desktop_default_callbacks.insert p.1 p.2.desktop_default_callbacks }
  if needs_tag p.2 then
    let tc := match s1.node_ids_to_tag_ids.get p.1 with
      | some t => (t, acc.2)
      | none => new_tag_id acc.2
    ({ s1 with
        node_ids_to_tag_ids := s1.node_ids_to_tag_ids.insert p.1 tc.1,
        tag_ids_to_node_ids := s1.tag_ids_to_node_ids.insert tc.1 p.1,
        tag_ids_to_callbacks := if p.2.callbacks.isEmpty then s1.tag_ids_to_callbacks
          else s1.tag_ids_to_callbacks.insert tc.1 p.2.callbacks,
        tag_ids_to_default_callbacks := if p.2.default_callbacks.isEmpty
          then s1.tag_ids_to_default_callbacks
          else s1.tag_ids_to_default_callbacks.insert tc.1 p.2.default_callbacks,
        tab_index_tags := match p.2.tab_index with
          | some ti => s1.tab_index_tags.insert tc.1 (p.1, ti)
          | none => s1.tab_index_tags,
        draggable_tags := if p.2.draggable then s1.draggable_tags.insert tc.1 p.1
          else s1.draggable_tags },
      tc.2)
  else (s1, acc.2)

/-- Modelled from the spec: `Dom::into_ui_state`, the tag-registry builder
(spec §4.1, not in the provided sources): traverse the DOM once, processing
every node; the global tag counter is the explicit `c`. -/
def into_ui_state (dom : Dom) (c : Nat) : UiState × Nat :=
  (treeNodes dom.root).foldl into_ui_state_step (UiState.empty dom, c)

/-- Node `n` holds no tag identity and appears in no tag-keyed map of `s`. -/
def NoTagFor (s : UiState) (n : NodeId) : Prop :=
  s.node_ids_to_tag_ids.get n = none ∧
  (∀ t, s.tag_ids_to_node_ids.get t ≠ some n) ∧
  (∀ t q, s.tab_index_tags.get t = some q → q.1 ≠ n) ∧
  (∀ t, s.draggable_tags.get t ≠ some n) ∧
  (∀ t q, s.tag_ids_to_hover_active_states.get t = some q → q.1 ≠ n)

theorem into_ui_state_step_preserves (acc : UiState × Nat) (p : NodeId × NodeData)
    (n : NodeId) (hn : NoTagFor acc.1 n) (hp : p.1 = n → needs_tag p.2 = false) :
    NoTagFor (into_ui_state_step acc p).1 n := by
  obtain ⟨h1, h2, h3, h4, h5⟩ := hn
  unfold into_ui_state_step
  by_cases htag : needs_tag p.2
  · have hpn : p.1 ≠ n := by
      intro hh
      rw [hp hh] at htag
      exact absurd htag (by simp)
    rw [if_pos htag]
    refine ⟨?_, ?_, ?_, ?_, ?_⟩
    · simp only
      rw [Map.get_insert]
      rw [if_neg (fun hh => hpn hh.symm)]
      exact h1
    · intro t
      simp only
      rw [Map.get_insert]
      by_cases ht : t = (match Map.get acc.1.node_ids_to_tag_ids p.1 with
          | some t => (t, acc.2)
          | none => new_tag_id acc.2).1
      · rw [if_pos ht]
        intro hh
        exact hpn (Option.some.inj hh)
      · rw [if_neg ht]
        exact h2 t
    · intro t q
      simp only
      cases hti : p.2.tab_index with
      | some ti =>
        rw [Map.get_insert]
        by_cases ht : t = (match Map.get acc.1.node_ids_to_tag_ids p.1 with
            | some t => (t, acc.2)
            | none => new_tag_id acc.2).1
        · rw [if_pos ht]
          intro hh
          obtain rfl : (p.1, ti) = q := Option.some.inj hh
          exact hpn
        · rw [if_neg ht]
          exact h3 t q
      | none => exact h3 t q
    · intro t
      simp only
      by_cases hd : p.2.draggable
      · rw [if_pos hd, Map.get_insert]
        by_cases ht : t = (match Map.get acc.1.node_ids_to_tag_ids p.1 with
            | some t => (t, acc.2)
            | none => new_tag_id acc.2).1
        · rw [if_pos ht]
          intro hh
          exact hpn (Option.some.inj hh)
        · rw [if_neg ht]
          exact h4 t
      · rw [if_neg hd]
        exact h4 t
    · intro t q
      exact h5 t q
  · rw [if_neg htag]
    exact ⟨h1, h2, h3, h4, h5⟩

theorem into_ui_state_fold_preserves (l : List (NodeId × NodeData)) (acc : UiState × Nat)
    (n : NodeId) (hn : NoTagFor acc.1 n)
    (hl : ∀ d, (n, d) ∈ l → needs_tag d = false) :
    NoTagFor (l.foldl into_ui_state_step acc).1 n := by
  induction l generalizing acc with
  | nil => exact hn
  | cons q rest ih =>
    have hq : q.1 = n → needs_tag q.2 = false := by
      intro hh
      exact hl q.2 (by
        have : q = (n, q.2) := by
          rw [← hh]
        rw [← this]
        simp)
    exact ih (into_ui_state_step acc q)
      (into_ui_state_step_preserves acc q n hn hq)
      (fun d hd => hl d (List.mem_cons_of_mem _ hd))

theorem uiState_empty_noTagFor (dom : Dom) (n : NodeId) : NoTagFor (UiState.empty dom) n := by
  refine ⟨rfl, ?_, ?_, ?_, ?_⟩
  · intro t
    simp [UiState.empty, Map.get]
  · intro t q h
    simp [UiState.empty, Map.get] at h
  · intro t
    simp [UiState.empty, Map.get]
  · intro t q h
    simp [UiState.empty, Map.get] at h

/-- Claim C7: negated-filter callbacks are routed into the node-keyed maps
`not_callbacks`/`not_default_callbacks` (in the embedding, as in the source
struct, those maps are keyed by `NodeId`, never by `TagId`), and building a
registry from a DOM in which a node carries only negated-filter callbacks —
no regular callbacks, no tab index, not draggable — assigns that node no tag
identity in any tag map. -/
theorem claim_C7_negated_filters_no_tags (dom : Dom) (c : Nat) (n : NodeId)
    (h : ∀ d, (n, d) ∈ treeNodes dom.root →
      d.callbacks = [] ∧ d.default_callbacks = [] ∧ d.tab_index = none ∧
      d.draggable = false) :
    (into_ui_state dom c).1.node_ids_to_tag_ids.get n = none ∧
    (∀ t, (into_ui_state dom c).1.tag_ids_to_node_ids.get t ≠ some n) ∧
    (∀ t q, (into_ui_state dom c).1.tab_index_tags.get t = some q → q.1 ≠ n) ∧
    (∀ t, (into_ui_state dom c).1.draggable_tags.get t ≠ some n) ∧
    (∀ t q, (into_ui_state dom c).1.tag_ids_to_hover_active_states.get t = some q →
      q.1 ≠ n) := by
  have hl : ∀ d, (n, d) ∈ treeNodes dom.root → needs_tag d = false := by
    intro d hd
    obtain ⟨h1, h2, h3, h4⟩ := h d hd
    simp [needs_tag, h1, h2, h3, h4]
  exact into_ui_state_fold_preserves (treeNodes dom.root) (UiState.empty dom, c) n
    (uiState_empty_noTagFor dom n) hl

/-- Node payload for the C7 witness: only a negated-filter callback. -/
def wNotData : NodeData := ⟨[], [], [(1, 10)], [], [], [], [], [], none, false⟩

/-- One-node DOM for the C7 witness. -/
def wNotDom : Dom := ⟨NodeTree.node 0 wNotData []⟩

/-- Witness for claim C7 at a concrete one-node DOM whose node carries only a
negated-filter callback. -/
theorem claim_C7_witness :
    (∀ d, ((0 : NodeId), d) ∈ treeNodes wNotDom.root →
      d.callbacks = [] ∧ d.default_callbacks = [] ∧ d.tab_index = none ∧
      d.draggable = false) ∧
    ((into_ui_state wNotDom 0).1.node_ids_to_tag_ids.get 0 = none ∧
      (∀ t, (into_ui_state wNotDom 0).1.tag_ids_to_node_ids.get t ≠ some 0) ∧
      (∀ t q, (into_ui_state wNotDom 0).1.tab_index_tags.get t = some q → q.1 ≠ 0) ∧
      (∀ t, (into_ui_state wNotDom 0).1.draggable_tags.get t ≠ some 0) ∧
      (∀ t q, (into_ui_state wNotDom 0).1.tag_ids_to_hover_active_states.get t = some q →
        q.1 ≠ 0)) := by
  have h : ∀ d, ((0 : NodeId), d) ∈ treeNodes wNotDom.root →
      d.callbacks = [] ∧ d.default_callbacks = [] ∧ d.tab_index = none ∧
      d.draggable = false := by
    intro d hd
    simp only [wNotDom, treeNodes, forestNodes] at hd
    rw [List.mem_singleton] at hd
    obtain rfl : wNotData = d := (Prod.mk.injEq _ _ _ _).mp hd.symm |>.2
    exact ⟨rfl, rfl, rfl, rfl⟩
  exact ⟨h, claim_C7_negated_filters_no_tags wNotDom 0 0 h⟩

/-- Modelled from the spec: the per-window context handed to layout
(`window::FakeWindow`, not in the provided sources), opaque here. -/
abbrev FakeWindow := Nat

/-- Embeds `AppState` as consumed by `UiState::from_app_state`: the window map, the
shared resources, and the locked application data model (opaque here). -/
structure AppState where
  windows : Map WindowId FakeWindow
  resources : Nat
  data : Nat

/-- Embeds `app::RuntimeError` as used by `UiState::from_app_state`: the
distinguishable window-not-found error value. -/
inductive RuntimeError where
| WindowIndexError
deriving DecidableEq

/-- Embeds `UiState::from_app_state` (`src/azul/src/ui_state.rs` lines 85-111): look
the window up in the window map — absent means the `WindowIndexError` failure
— then shortly lock the data, produce the DOM through the external `layout`
collaborator, and build the registry. `layout` and the tag counter are passed
explicitly. -/
def from_app_state (layout : Nat → Dom) (app_state : AppState) (window_id : WindowId)
    (c : Nat) : Except RuntimeError (UiState × Nat) :=
  match app_state.windows.get window_id with
  | none => Except.error RuntimeError.WindowIndexError
  | some _fake_window => Except.ok (into_ui_state (layout app_state.data) c)

/-- Claim C4: `from_app_state` returns the distinguishable window-not-found
error value (and no registry) exactly when the window identity is absent from
the application state's window map; when the window is present it returns a
registry and not an error. -/
theorem claim_C4_window_not_found (layout : Nat → Dom) (app_state : AppState)
    (window_id : WindowId) (c : Nat) :
    (from_app_state layout app_state window_id c
        = Except.error RuntimeError.WindowIndexError
      ↔ app_state.windows.get window_id = none) ∧
    ((∃ u, from_app_state layout app_state window_id c = Except.ok u)
      ↔ app_state.windows.get window_id ≠ none) := by
  unfold from_app_state
  cases h : app_state.windows.get window_id with
  | none => simp
  | some w => simp

/-- Modelled from the spec: a DOM subtree annotated with the paint-order
level the cascade traversal assigns to each node. -/
inductive LeveledTree where
| node : NodeId → NodeData → Nat → List LeveledTree → LeveledTree

/-- The level assigned to the root node of an annotated subtree. -/
def rootLevel : LeveledTree → Nat
| .node _ _ z _ => z

mutual

/-- Modelled from the spec (§4.2 steps 1 and 4): the top-down level-assigning
traversal of `css::match_dom_css_selectors` (not in the provided sources). A
node receives the current counter value `z`; its children are processed left
to right starting from `z + 1` when the node establishes a new stacking
context (the abstract `newCtx` predicate) and from `z` otherwise, threading
the counter so a later sibling never receives a lower level than an earlier
one. Returns the annotated tree and the final counter. -/
def annotateTree (newCtx : NodeData → Bool) : NodeTree → Nat → LeveledTree × Nat
| .node i d cs, z =>
  (LeveledTree.node i d z
      (annotateForest newCtx cs (if newCtx d then z + 1 else z)).1,
    (annotateForest newCtx cs (if newCtx d then z + 1 else z)).2)

/-- Level assignment over a forest, threading the counter left to right. -/
def annotateForest (newCtx : NodeData → Bool) :
    List NodeTree → Nat → List LeveledTree × Nat
| [], z => ([], z)
| t :: ts, z =>
  ((annotateTree newCtx t z).1
      :: (annotateForest newCtx ts (annotateTree newCtx t z).2).1,
    (annotateForest newCtx ts (annotateTree newCtx t z).2).2)

end

mutual

/-- Paint-order monotonicity of an annotated subtree: each node's children
have levels bounded below by the node's own level and non-decreasing left to
right, recursively. -/
def levelsOk : LeveledTree → Bool
| .node _ _ z cs => forestOk z cs

/-- Children check with lower bound `b`: the first child's level is at least
`b`, each child is internally monotone, and the later siblings are bounded by
the previous sibling's level. -/
def forestOk : Nat → List LeveledTree → Bool
| _, [] => true
| b, c :: cs => (decide (b ≤ rootLevel c) && levelsOk c) && forestOk (rootLevel c) cs

end

mutual

/-- All (identity, payload, level) triples of an annotated tree, in traversal
order. -/
def nodesOfL : LeveledTree → List (NodeId × NodeData × Nat)
| .node i d z cs => (i, d, z) :: nodesOfLForest cs

/-- All (identity, payload, level) triples of an annotated forest. -/
def nodesOfLForest : List LeveledTree → List (NodeId × NodeData × Nat)
| [] => []
| t :: ts => nodesOfL t ++ nodesOfLForest ts

end

theorem rootLevel_annotateTree (newCtx : NodeData → Bool) (t : NodeTree) (z : Nat) :
    rootLevel (annotateTree newCtx t z).1 = z := by
  cases t with
  | node i d cs => rfl

mutual

theorem annotateTree_counter_le (newCtx : NodeData → Bool) :
    ∀ (t : NodeTree) (z : Nat), z ≤ (annotateTree newCtx t z).2
| .node i d cs, z => by
  simp only [annotateTree]
  have h := annotateForest_counter_le newCtx cs (if newCtx d then z + 1 else z)
  exact le_trans (by split <;> omega) h

theorem annotateForest_counter_le (newCtx : NodeData → Bool) :
    ∀ (ts : List NodeTree) (z : Nat), z ≤ (annotateForest newCtx ts z).2
| [], z => le_refl z
| t :: ts, z => by
  simp only [annotateForest]
  exact le_trans (annotateTree_counter_le newCtx t z)
    (annotateForest_counter_le newCtx ts (annotateTree newCtx t z).2)

end

mutual

theorem annotateTree_levelsOk (newCtx : NodeData → Bool) :
    ∀ (t : NodeTree) (z : Nat), levelsOk (annotateTree newCtx t z).1 = true
| .node i d cs, z => by
  simp only [annotateTree, levelsOk]
  exact annotateForest_forestOk newCtx cs (if newCtx d then z + 1 else z) z
    (by split <;> omega)

theorem annotateForest_forestOk (newCtx : NodeData → Bool) :
    ∀ (ts : List NodeTree) (z b : Nat), b ≤ z →
      forestOk b (annotateForest newCtx ts z).1 = true
| [], _, _, _ => rfl
| t :: ts, z, b, hb => by
  simp only [annotateForest, forestOk]
  rw [rootLevel_annotateTree newCtx t z]
  rw [annotateTree_levelsOk newCtx t z]
  rw [annotateForest_forestOk newCtx ts (annotateTree newCtx t z).2 z
    (annotateTree_counter_le newCtx t z)]
  simp [hb]

end

mutual

theorem nodesOfL_annotate (newCtx : NodeData → Bool) :
    ∀ (t : NodeTree) (z : Nat),
      (nodesOfL (annotateTree newCtx t z).1).map (fun q => (q.1, q.2.1)) = treeNodes t
| .node i d cs, z => by
  simp only [annotateTree, nodesOfL, treeNodes, List.map_cons]
  rw [nodesOfLForest_annotate newCtx cs (if newCtx d then z + 1 else z)]

theorem nodesOfLForest_annotate (newCtx : NodeData → Bool) :
    ∀ (ts : List NodeTree) (z : Nat),
      (nodesOfLForest (annotateForest newCtx ts z).1).map (fun q => (q.1, q.2.1))
        = forestNodes ts
| [], _ => rfl
| t :: ts, z => by
  simp only [annotateForest, nodesOfLForest, forestNodes, List.map_append]
  rw [nodesOfL_annotate newCtx t z,
    nodesOfLForest_annotate newCtx ts (annotateTree newCtx t z).2]

end

/-- Modelled from the spec: the parsed stylesheet (`css::Css`, not in the
provided sources): an ordered rule sequence plus the dynamic per-frame
property overrides that the cascade clones into its output. -/
structure Css where
  rules : List CssRule
  dynamic_css_overrides : Map String CssProperty

/-- Modelled from the spec: `css::ParsedCss` (not in the provided sources):
the pre-processed view of the stylesheet's rules. -/
structure ParsedCss where
  rules : List CssRule

/-- Modelled from the spec: `ParsedCss::from_css` extracts the rule view. -/
def ParsedCss.from_css (css : Css) : ParsedCss := ⟨css.rules⟩

/-- Embeds `UiDescription` of `src/src/ui_description.rs`: node arena, root id, the
sparse styled-node map, the shared default styled node, and the cloned
dynamic overrides. -/
structure UiDescription where
  ui_descr_arena : NodeTree
  ui_descr_root : NodeId
  styled_nodes : Map NodeId StyledNode
  default_style_of_node : StyledNode
  dynamic_css_overrides : Map String CssProperty

/-- Identity of the root node of a tree. -/
def rootId : NodeTree → NodeId
| .node i _ _ => i

/-- The declaration list one node receives: the declarations of the rules
matching it, discovered in rule order and appended by `push_rule`. -/
def matching_constraints (rule_matches : CssRule → NodeData → Bool) (rules : List CssRule)
    (d : NodeData) : CssConstraintList :=
  (rules.filter (fun r => rule_matches r d)).foldl CssConstraintList.push_rule ⟨[]⟩

/-- The sparse styled-node association list: one entry per node that matched
at least one rule, carrying the node's assigned paint-order level. -/
def collect_styles (rule_matches : CssRule → NodeData → Bool) (rules : List CssRule)
    (lt : LeveledTree) : List (NodeId × StyledNode) :=
  (nodesOfL lt).filterMap (fun q =>
    if (matching_constraints rule_matches rules q.2.1).list.isEmpty then none
    else some (q.1,
      { z_level := ⟨q.2.2⟩,
        css_constraints := matching_constraints rule_matches rules q.2.1 }))

/-- Modelled from the spec: `css::match_dom_css_selectors` (not in the
provided sources; spec §4.2): walk the DOM top-down from `root` with the
paint-order counter seeded at `z`, test every rule against every node
(structural selector semantics abstracted into the `matches` predicate,
stacking-context creation into `newCtx`), produce the sparse styled-node map
and the shared default styled node of z-level 0 with an empty declaration
list. -/
def match_dom_css_selectors (rule_matches : CssRule → NodeData → Bool)
    (newCtx : NodeData → Bool) (root : NodeTree) (parsed_css : ParsedCss) (css : Css)
    (z : ZIndex) : UiDescription :=
  { ui_descr_arena := root
    ui_descr_root := rootId root
    styled_nodes :=
      collect_styles rule_matches parsed_css.rules (annotateTree newCtx root z.val).1
    default_style_of_node := StyledNode.default
    dynamic_css_overrides := css.dynamic_css_overrides }

/-- Embeds `UiDescription::from_dom` (`src/src/ui_description.rs` lines 53-61):
delegates to `match_dom_css_selectors` on the DOM root, the parsed stylesheet
and the seed `ZIndex(0)`; the selector-matching and stacking-context
predicates of the missing css module are explicit parameters. -/
def from_dom (rule_matches : CssRule → NodeData → Bool) (newCtx : NodeData → Bool)
    (dom : Dom) (style : Css) : UiDescription :=
  match_dom_css_selectors rule_matches newCtx dom.root (ParsedCss.from_css style) style ⟨0⟩

/-- Modelled from the spec: consumers resolve a node's style by looking it up
in the sparse map, deterministically falling back to the shared default
styled node when absent. -/
def resolved_style (d : UiDescription) (n : NodeId) : StyledNode :=
  match d.styled_nodes.get n with
  | some s => s
  | none => d.default_style_of_node

/-- Claim C6: the shared default styled node produced by the cascade has
paint-order level 0 and an empty declaration list, and a node matching zero
rules resolves to exactly that value. -/
theorem claim_C6_default_style (rule_matches : CssRule → NodeData → Bool)
    (newCtx : NodeData → Bool) (dom : Dom) (style : Css) (n : NodeId)
    (h : ∀ d, (n, d) ∈ treeNodes dom.root →
      style.rules.filter (fun r => rule_matches r d) = []) :
    (from_dom rule_matches newCtx dom style).default_style_of_node
        = { z_level := ⟨0⟩, css_constraints := ⟨[]⟩ } ∧
    resolved_style (from_dom rule_matches newCtx dom style) n
        = { z_level := ⟨0⟩, css_constraints := ⟨[]⟩ } := by
  refine ⟨rfl, ?_⟩
  have hget : Map.get (collect_styles rule_matches style.rules
      (annotateTree newCtx dom.root 0).1) n = none := by
    apply Map.get_eq_none_of_not_mem_keys
    intro hmem
    obtain ⟨entry, hentry, hfst⟩ := List.mem_map.mp hmem
    simp only [collect_styles] at hentry
    obtain ⟨q, hq, hfq⟩ := List.mem_filterMap.mp hentry
    by_cases he : (matching_constraints rule_matches style.rules q.2.1).list.isEmpty
    · rw [if_pos he] at hfq
      exact absurd hfq (by simp)
    · rw [if_neg he] at hfq
      have hq1 : q.1 = n := by
        have := congrArg Prod.fst (Option.some.inj hfq)
        simpa [hfst] using this.trans hfst
      have hmem2 : (n, q.2.1) ∈ treeNodes dom.root := by
        rw [← nodesOfL_annotate newCtx dom.root 0]
        exact List.mem_map.mpr ⟨q, hq, by rw [hq1]⟩
      have hfilter := h q.2.1 hmem2
      apply he
      simp [matching_constraints, hfilter]
  have hget' : (from_dom rule_matches newCtx dom style).styled_nodes.get n = none := hget
  unfold resolved_style
  rw [hget']
  rfl

/-- Selector predicate fixture matching no rule, for the C6 witness. -/
def wMatches : CssRule → NodeData → Bool := fun _ _ => false

/-- Stacking-context predicate fixture, for the C6 witness. -/
def wNewCtx : NodeData → Bool := fun _ => false

/-- Empty stylesheet fixture, for the C6 witness. -/
def wCss : Css := ⟨[], []⟩

/-- Witness for claim C6 at a concrete one-node DOM and empty stylesheet. -/
theorem claim_C6_witness :
    (∀ d, ((0 : NodeId), d) ∈ treeNodes wDom.root →
      wCss.rules.filter (fun r => wMatches r d) = []) ∧
    ((from_dom wMatches wNewCtx wDom wCss).default_style_of_node
        = { z_level := ⟨0⟩, css_constraints := ⟨[]⟩ } ∧
      resolved_style (from_dom wMatches wNewCtx wDom wCss) 0
        = { z_level := ⟨0⟩, css_constraints := ⟨[]⟩ }) :=
  ⟨fun _ _ => rfl, claim_C6_default_style wMatches wNewCtx wDom wCss 0 (fun _ _ => rfl)⟩

/-- Claim C8: `from_dom` resolves styles with the paint-order counter seeded
at 0 (the `ZIndex(0)` argument in the source), every styled node's z-level is
the level the seed-0 traversal assigns to that node, and the assignment is
monotonic in document order: within every subtree each child's level is at
least its parent's, and sibling levels are non-decreasing left to right. -/
theorem claim_C8_paint_order (rule_matches : CssRule → NodeData → Bool)
    (newCtx : NodeData → Bool) (dom : Dom) (style : Css) :
    (∀ n s, (from_dom rule_matches newCtx dom style).styled_nodes.get n = some s →
      (n, s.z_level.val) ∈ (nodesOfL (annotateTree newCtx dom.root 0).1).map
        (fun q => (q.1, q.2.2))) ∧
    levelsOk (annotateTree newCtx dom.root 0).1 = true := by
  constructor
  · intro n s hget
    have hget' : Map.get (collect_styles rule_matches style.rules
        (annotateTree newCtx dom.root 0).1) n = some s := hget
    have hmem := Map.get_mem _ _ _ hget'
    simp only [collect_styles] at hmem
    obtain ⟨q, hq, hfq⟩ := List.mem_filterMap.mp hmem
    by_cases he : (matching_constraints rule_matches style.rules q.2.1).list.isEmpty
    · rw [if_pos he] at hfq
      exact absurd hfq (by simp)
    · rw [if_neg he] at hfq
      have hpair := Option.some.inj hfq
      have hq1 : q.1 = n := congrArg Prod.fst hpair
      have hq2 := congrArg Prod.snd hpair
      simp only at hq2
      subst hq2
      apply List.mem_map.mpr
      refine ⟨q, hq, ?_⟩
      rw [hq1]
  · exact annotateTree_levelsOk newCtx dom.root 0

end Azul
